/-
Verification of the harmony bash-agent repository.

The development shallowly embeds the two Python source files:
  * `bash_agent.py` — the agent loop (`run_bash_agent`), its inline command
    sniffer, the helper `extract_command` over decoded harmony messages, and
    the subprocess executor `execute_bash_command`;
  * `temp.py` — the standalone extractor `extract_command_from_text` with its
    `<|call|>` truncation, per-channel extraction, HDL safety filter and the
    regex fallback over fenced code blocks.

External collaborators (the HTTP model endpoint, the `openai_harmony`
encoder/decoder, `subprocess.run`, and the two heuristics
`looks_like_hdl_code` / `looks_like_shell_command` whose definitions are not
part of the sources) are modelled as explicit oracle parameters; Python
values that the code parses out of JSON are modelled by a small JSON value
type, and Python exceptions by `Except`.
-/
import Mathlib

set_option maxRecDepth 10000

/-- A JSON value as produced by Python's `json.loads`: objects keep their
key/value pairs in textual order (CPython dicts preserve insertion order,
later duplicate keys overwrite earlier ones, which the lookup below honours). -/
inductive Json where
  | str (s : String)
  | num (n : Int)
  | bool (b : Bool)
  | null
  | arr (xs : List Json)
  | obj (kvs : List (String × Json))

/-- Python truthiness (`if x:`) of a JSON-shaped value: empty string, zero,
`False`, `None`, empty list and empty dict are falsy. -/
def Json.truthy : Json → Bool
  | .str s => s ≠ ""
  | .num n => n ≠ 0
  | .bool b => b
  | .null => false
  | .arr xs => !xs.isEmpty
  | .obj kvs => !kvs.isEmpty

/-- Python truthiness of an `Optional` value (`None` is falsy). -/
def optTruthy : Option Json → Bool
  | none => false
  | some j => j.truthy

/-- Dict key membership (`"k" in d`). -/
def dictHasKey (kvs : List (String × Json)) (k : String) : Bool :=
  kvs.any (fun p => p.1 == k)

/-- Dict lookup / `d.get(k)`: duplicate keys in a JSON object overwrite, so
the last binding wins. Returns `none` when the key is absent (`None`). -/
def dictGet (kvs : List (String × Json)) (k : String) : Option Json :=
  (kvs.reverse.find? (fun p => p.1 == k)).map (·.2)

/-- The exceptions this embedding lets escape: `TypeError` is the only one the
sources ever leave uncaught. -/
inductive PyErr where
  | typeError
  deriving DecidableEq, Repr

/-- Whitespace characters stripped by Python's `str.strip()` (ASCII part). -/
def isPyWs (c : Char) : Bool :=
  c = ' ' || c = '\t' || c = '\n' || c = '\r' || c = '\x0b' || c = '\x0c'

/-- Python `str.strip()`: remove leading and trailing whitespace. -/
def pyStrip (s : String) : String :=
  String.mk (((s.data.dropWhile isPyWs).reverse.dropWhile isPyWs).reverse)

/-! ### A conservative model of `json.loads`

Only the part of Python's JSON grammar the claims touch is accepted
(no floats, no `NaN`/`Infinity`, basic string escapes); everything this
parser accepts, `json.loads` accepts with the same value, and anything else
is reported as `none` (a `json.JSONDecodeError` in Python). The parser is
strict about what Python rejects — leading zeros, raw control characters and
unknown escapes all fail — so hypotheses of the form `parseJson s = some v`
never cover inputs where `json.loads` would raise. -/

/-- JSON structural whitespace. -/
def isJsonWs (c : Char) : Bool :=
  c = ' ' || c = '\t' || c = '\n' || c = '\r'

/-- Hexadecimal digit test. -/
def isHexDig (c : Char) : Bool :=
  c.isDigit || ('a' ≤ c && c ≤ 'f') || ('A' ≤ c && c ≤ 'F')

/-- Value of a hexadecimal digit. -/
def hexVal (c : Char) : Nat :=
  if c.isDigit then c.toNat - '0'.toNat
  else if 'a' ≤ c && c ≤ 'f' then c.toNat - 'a'.toNat + 10
  else if 'A' ≤ c && c ≤ 'F' then c.toNat - 'A'.toNat + 10
  else 0

/-- Parse the body of a JSON string literal after the opening quote.
Returns the decoded string and the remaining input. Lone `\uXXXX` surrogates
(which CPython tolerates) are rejected, keeping the model conservative. -/
def parseStrBody : List Char → List Char → Option (String × List Char)
  | [], _ => none
  | c :: rest, acc =>
    if c = '"' then some (String.mk acc.reverse, rest)
    else if c = '\\' then
      match rest with
      | [] => none
      | e :: rest2 =>
        if e = '"' then parseStrBody rest2 ('"' :: acc)
        else if e = '\\' then parseStrBody rest2 ('\\' :: acc)
        else if e = '/' then parseStrBody rest2 ('/' :: acc)
        else if e = 'b' then parseStrBody rest2 ('\x08' :: acc)
        else if e = 'f' then parseStrBody rest2 ('\x0c' :: acc)
        else if e = 'n' then parseStrBody rest2 ('\n' :: acc)
        else if e = 'r' then parseStrBody rest2 ('\r' :: acc)
        else if e = 't' then parseStrBody rest2 ('\t' :: acc)
        else if e = 'u' then
          match rest2 with
          | h1 :: h2 :: h3 :: h4 :: rest3 =>
            if isHexDig h1 && isHexDig h2 && isHexDig h3 && isHexDig h4 then
              let n := 4096 * hexVal h1 + 256 * hexVal h2 + 16 * hexVal h3 + hexVal h4
              if 0xd800 ≤ n && n ≤ 0xdfff then none
              else parseStrBody rest3 (Char.ofNat n :: acc)
            else none
          | _ => none
        else none
    else if c.toNat < 32 then none
    else parseStrBody rest (c :: acc)

/-- Digits of a JSON integer (no leading-zero check here; the caller does it). -/
def takeDigits : List Char → List Char × List Char
  | [] => ([], [])
  | c :: rest =>
    if c.isDigit then
      let (ds, r) := takeDigits rest
      (c :: ds, r)
    else ([], c :: rest)

/-- Numeric value of a digit list. -/
def digitsVal : List Char → Nat
  | [] => 0
  | ds => ds.foldl (fun a c => 10 * a + (c.toNat - '0'.toNat)) 0

/-- Does the remaining input continue with a float/exponent part?  Floats are
outside this model; numbers followed by one are rejected (conservative). -/
def nextIsFloatish : List Char → Bool
  | [] => false
  | c :: _ => c = '.' || c = 'e' || c = 'E'

mutual

/-- Parse a JSON value. `fuel` bounds recursion depth; it always exceeds the
input length at the top-level entry, which suffices because every recursive
call consumes at least one character first. -/
def parseVal : Nat → List Char → Option (Json × List Char)
  | 0, _ => none
  | fuel + 1, s =>
    match s.dropWhile isJsonWs with
    | [] => none
    | c :: rest =>
      if c = '"' then (parseStrBody rest []).map (fun p => (Json.str p.1, p.2))
      else if c = '{' then parseMembers fuel (rest.dropWhile isJsonWs) [] true
      else if c = '[' then parseElems fuel (rest.dropWhile isJsonWs) [] true
      else if c = 't' then
        match rest with
        | 'r' :: 'u' :: 'e' :: r => some (Json.bool true, r)
        | _ => none
      else if c = 'f' then
        match rest with
        | 'a' :: 'l' :: 's' :: 'e' :: r => some (Json.bool false, r)
        | _ => none
      else if c = 'n' then
        match rest with
        | 'u' :: 'l' :: 'l' :: r => some (Json.null, r)
        | _ => none
      else if c = '-' then
        match takeDigits rest with
        | ([], _) => none
        | (d :: ds, r) =>
          if d = '0' && !ds.isEmpty then none
          else if nextIsFloatish r then none
          else some (Json.num (-(digitsVal (d :: ds) : Int)), r)
      else if c.isDigit then
        match takeDigits (c :: rest) with
        | ([], _) => none
        | (d :: ds, r) =>
          if d = '0' && !ds.isEmpty then none
          else if nextIsFloatish r then none
          else some (Json.num (digitsVal (d :: ds) : Int), r)
      else none
termination_by structural fuel _ => fuel

/-- Members of a JSON object after the opening brace (whitespace already
skipped); `first` is true before the first member. -/
def parseMembers : Nat → List Char → List (String × Json) → Bool → Option (Json × List Char)
  | 0, _, _, _ => none
  | fuel + 1, s, acc, first =>
    match s with
    | [] => none
    | c :: rest =>
      if c = '}' && first then some (Json.obj acc.reverse, rest)
      else if c = '"' then
        match parseStrBody rest [] with
        | none => none
        | some (k, r1) =>
          match r1.dropWhile isJsonWs with
          | ':' :: r2 =>
            match parseVal fuel r2 with
            | none => none
            | some (v, r3) =>
              match r3.dropWhile isJsonWs with
              | ',' :: r4 => parseMembers fuel (r4.dropWhile isJsonWs) ((k, v) :: acc) false
              | '}' :: r4 => some (Json.obj ((k, v) :: acc).reverse, r4)
              | _ => none
          | _ => none
      else none
termination_by structural fuel _ _ _ => fuel

/-- Elements of a JSON array after the opening bracket (whitespace already
skipped). -/
def parseElems : Nat → List Char → List Json → Bool → Option (Json × List Char)
  | 0, _, _, _ => none
  | fuel + 1, s, acc, first =>
    match s with
    | [] => none
    | ']' :: rest =>
      if first then some (Json.arr acc.reverse, rest) else none
    | s' =>
      match parseVal fuel s' with
      | none => none
      | some (v, r1) =>
        match r1.dropWhile isJsonWs with
        | ',' :: r2 => parseElems fuel (r2.dropWhile isJsonWs) (v :: acc) false
        | ']' :: r2 => some (Json.arr (v :: acc).reverse, r2)
        | _ => none
termination_by structural fuel _ _ _ => fuel

end

/-- Model of `json.loads`: parse a complete JSON document; `none` stands for
`json.JSONDecodeError`. -/
def parseJson (s : String) : Option Json :=
  match parseVal (s.length + 1) s.data with
  | none => none
  | some (v, rest) => if (rest.dropWhile isJsonWs).isEmpty then some v else none

/-! ### Shell Executor — `bash_agent.execute_bash_command`

The behaviour of `subprocess.run(command, shell=True, capture_output=True,
text=True, timeout=30, cwd=cwd)` is external; an oracle reports, per call,
whether the subprocess completed (with captured stdout, stderr and return
code), hit the 30-second timeout (`subprocess.TimeoutExpired`), or raised any
other exception (whose `str(e)` rendering the oracle supplies). -/

/-- Outcome of one `subprocess.run` call, as seen by the executor's
`try` block. -/
inductive RunOutcome where
  | completed (stdout stderr : String) (returncode : Int)
  | timedOut
  | failed (msg : String)
  deriving DecidableEq, Repr

/-- `bash_agent.execute_bash_command`: run a command, return
`(output, returncode)`; `output.strip()` on success, an `"Error: ..."`
sentinel with code `-1` on timeout or any other failure. Total by
construction — the Python `try`/`except` arms become the oracle's three
constructors, so no exception escapes. -/
def execute_bash_command (runner : String → String → RunOutcome)
    (command : String) (cwd : String := "/home/ye/ml-experiments/harmony") :
    String × Int :=
  match runner command cwd with
  | .completed out err rc => (pyStrip (out ++ err), rc)
  | .timedOut => ("Error: Command timed out after 30 seconds", -1)
  | .failed msg => ("Error: " ++ msg, -1)

/-! ### Harmony messages

`openai_harmony`'s `encode` + `parse_messages_from_completion_tokens` pair is
external: an oracle maps the text handed to the encoder to either a list of
decoded messages or an exception (`Except.error`, covering encode/parse
failures and, in `temp.py`, the missing-import case). A decoded message
exposes the fields the sources read: an optional channel name, an optional
recipient, and content items that may or may not carry a `text` attribute
(`none` models an item without one, making the sources' `hasattr` checks
honest). -/

/-- A message decoded by the harmony parser. -/
structure HMsg where
  channel : Option String := none
  recipient : Option String := none
  content : List (Option String) := []
  deriving DecidableEq, Repr

/-- Substring scan over character lists (an empty needle always matches). -/
def containsSeq (tok : List Char) : List Char → Bool
  | [] => tok.isEmpty
  | c :: cs => tok.isPrefixOf (c :: cs) || containsSeq tok cs

/-- Python `in` on strings: substring test. -/
def isSubstrOf (needle hay : String) : Bool :=
  containsSeq needle.data hay.data

/-- Truthiness of `Optional[str]` (`None` and `""` are falsy). -/
def optStrTruthy : Option String → Bool
  | none => false
  | some s => s ≠ ""

/-- Step of `bash_agent.extract_command` on one message: `some r` means the
Python `for` loop executed a `return r`; `none` means it moved on to the next
message (condition failed, or a `JSONDecodeError`/`AttributeError`/`KeyError`
was swallowed by the `continue`). -/
def extractCommandStep (msg : HMsg) : Option (Option Json) :=
  if optStrTruthy msg.recipient &&
      isSubstrOf "execute_bash" (msg.recipient.getD "") then
    match msg.content with
    | [] => none
    | item :: _ =>
      match item with
      | none => none
      | some text =>
        match parseJson text with
        | none => none
        | some (.obj kvs) => some (dictGet kvs "command")
        | some _ => none
  else none

/-- `bash_agent.extract_command`: scan decoded messages for a tool-call
recipient and read the `"command"` field of its first content item. A
message that reaches `return args.get("command")` ends the scan even when
the field is absent (Python returns `None` there). -/
def extract_command : List HMsg → Option Json
  | [] => none
  | msg :: rest =>
    match extractCommandStep msg with
    | some r => r
    | none => extract_command rest

/-! ### Command sniffing inside `run_bash_agent` (lines 219–250)

Three priority phases over one endpoint reply: the `tool_calls` scan, the
bare-JSON content probe, and the harmony decode of `reasoning + "\n" +
content`. Only the middle phase can raise: its `try` catches nothing but
`json.JSONDecodeError`, so the `TypeError` produced by `"command" in x` on a
number/bool/`None`, or by `x["command"]` on a string/list, escapes. -/

/-- One entry of `msg["tool_calls"]`: the function name (defaulted to `""`
when absent, exactly like `tc.get("function", {}).get("name", "")`) and the
`"arguments"` payload, which the endpoint may deliver as a raw string or as
an already-parsed object (`isinstance(args_str, str)` dispatch). A missing
`"arguments"` key defaults to the string `"\x7b\x7d"`, which behaves
identically to supplying that literal. -/
structure ToolCall where
  name : String := ""
  arguments : String ⊕ Json := Sum.inl "\x7b\x7d"

/-- The `tool_calls` loop: each matching call (name containing `"bash"`)
overwrites `command` with `args.get("command")` when its arguments parse to a
dict; malformed JSON or a non-dict value raises inside the bare `except:`
and leaves `command` untouched. -/
def toolCallPhase : List ToolCall → Option Json → Option Json
  | [], cmd => cmd
  | tc :: rest, cmd =>
    if isSubstrOf "bash" tc.name then
      let cmd' :=
        match tc.arguments with
        | .inl s =>
          match parseJson s with
          | none => cmd
          | some (.obj kvs) => dictGet kvs "command"
          | some _ => cmd
        | .inr (.obj kvs) => dictGet kvs "command"
        | .inr _ => cmd
      toolCallPhase rest cmd'
    else toolCallPhase rest cmd

/-- Python `k in x` for a string key and a JSON-shaped value: key test on
dicts, substring test on strings, element equality on lists (only the equal
string can match a string), and a `TypeError` on numbers, booleans and
`None`. -/
def pyInKey (k : String) : Json → Except PyErr Bool
  | .obj kvs => .ok (dictHasKey kvs k)
  | .str s => .ok (isSubstrOf k s)
  | .arr xs => .ok (xs.any (fun x => match x with
      | .str s => s == k
      | _ => false))
  | _ => .error .typeError

/-- Python `x[k]` for a string key: dict lookup, `TypeError` on strings and
lists (non-integer index). Only reached after `pyInKey` returned `true`, so
the dict lookup cannot miss. -/
def pyIndexKey (k : String) : Json → Except PyErr (Option Json)
  | .obj kvs => .ok (dictGet kvs k)
  | _ => .error .typeError

/-- The bare-JSON content probe (`if not command and content:`): parse the
stripped content; a `JSONDecodeError` is swallowed, but the membership test
and the indexing can raise a `TypeError` that nothing catches. -/
def bareJsonPhase (content : String) (cmd : Option Json) :
    Except PyErr (Option Json) :=
  if !optTruthy cmd && content ≠ "" then
    match parseJson (pyStrip content) with
    | none => .ok cmd
    | some v => do
      let hit ← pyInKey "command" v
      if hit then pyIndexKey "command" v else pure cmd
  else .ok cmd

/-- The harmony-format probe (`if not command:`): when the concatenated
`reasoning + "\n" + content` text mentions `execute_bash`, decode it and take
`extract_command`'s verdict (overwriting `command`, possibly with `None`);
any decode exception is swallowed by the bare `except:`. -/
def harmonyPhase (dec : String → Except Unit (List HMsg))
    (reasoning content : String) (cmd : Option Json) : Option Json :=
  if !optTruthy cmd then
    let fullText := pyStrip (reasoning ++ "\n" ++ content)
    if isSubstrOf "execute_bash" fullText then
      match dec fullText with
      | .error _ => cmd
      | .ok msgs => extract_command msgs
    else cmd
  else cmd

/-- The complete command sniffer of one `run_bash_agent` iteration. -/
def sniffResponse (dec : String → Except Unit (List HMsg))
    (toolCalls : List ToolCall) (content reasoning : String) :
    Except PyErr (Option Json) := do
  let c1 := toolCallPhase toolCalls none
  let c2 ← bareJsonPhase content c1
  pure (harmonyPhase dec reasoning content c2)

/-! ### `temp.extract_command_from_text`

The second, more defensive extractor. Its harmony phase runs inside one big
`try` whose `except ImportError` / `except Exception` arms both end at the
regex fallback; a *successful* parse that found no command returns `None`
before the fallback — but only when the decoded message list is non-empty or
the HDL flag was set (`if parsed_messages or hdl_detected_in_json`). -/

/-- The loop-marker token `<|call|>` (8 characters). -/
def callTok : List Char := ['<', '|', 'c', 'a', 'l', 'l', '|', '>']

/-- `original_text.count("<|call|>")`: non-overlapping left-to-right count,
exactly Python's `str.count` (the first pattern is the `<|call|>` token). -/
def countCall : List Char → Nat
  | '<' :: '|' :: 'c' :: 'a' :: 'l' :: 'l' :: '|' :: '>' :: rest => 1 + countCall rest
  | _ :: rest => countCall rest
  | [] => 0

/-- `original_text.split("<|call|>")`: Python's `str.split` with a
non-empty separator (the first pattern is the `<|call|>` token). -/
def splitCall : List Char → List (List Char)
  | '<' :: '|' :: 'c' :: 'a' :: 'l' :: 'l' :: '|' :: '>' :: rest => [] :: splitCall rest
  | c :: rest =>
    match splitCall rest with
    | [] => [[c]]
    | p :: ps => (c :: p) :: ps
  | [] => [[]]

/-- `"<|call|>".join(parts)`. -/
def joinCall : List (List Char) → List Char
  | [] => []
  | [p] => p
  | p :: ps => p ++ callTok ++ joinCall ps

/-- The text actually handed to the harmony encoder (`temp.py` lines 39–48):
when more than 10 `<|call|>` occurrences are counted, the first 11 split
parts are rejoined (keeping 10 separator occurrences); otherwise the
original text is encoded unchanged. -/
def decoderInput (text : String) : String :=
  if countCall text.data > 10 then
    String.mk (joinCall ((splitCall text.data).take 11))
  else text

/-- Regex `\s` (ASCII part): the whitespace class used by the fallback's
substitutions and by `\s*\n` in the fenced-code-block pattern. -/
def isReWs (c : Char) : Bool :=
  c = ' ' || c = '\t' || c = '\n' || c = '\r' || c = '\x0b' || c = '\x0c'

/-- `<|message|>`. -/
def msgTok : List Char := ['<', '|', 'm', 'e', 's', 's', 'a', 'g', 'e', '|', '>']

/-- `<|channel|>`. -/
def chanTok : List Char := ['<', '|', 'c', 'h', 'a', 'n', 'n', 'e', 'l', '|', '>']

/-- `<|end|>`. -/
def endTok : List Char := ['<', '|', 'e', 'n', 'd', '|', '>']

/-- `<|start|>`. -/
def startTok : List Char := ['<', '|', 's', 't', 'a', 'r', 't', '|', '>']

/-- Scan for `<|message|>` on the same line (the `.*?` of
`<\|channel\|>.*?<\|message\|>` cannot cross a newline without `re.DOTALL`):
returns the input after the marker, or `none` if a newline or the end comes
first. -/
def scanToMsg : List Char → Option (List Char)
  | [] => none
  | c :: cs =>
    if msgTok.isPrefixOf (c :: cs) then some (cs.drop 10)
    else if c = '\n' then none
    else scanToMsg cs

/-- One pass of `re.sub(r'<\|channel\|>.*?<\|message\|>', '', text)`:
leftmost-first, non-overlapping, substituting the empty string. The fuel
always exceeds the number of scan steps (each consumes at least one
character), so the top-level wrapper below is exact. -/
def chanSubF : Nat → List Char → List Char
  | 0, s => s
  | _ + 1, [] => []
  | fuel + 1, c :: cs =>
    if chanTok.isPrefixOf (c :: cs) then
      match scanToMsg (cs.drop 10) with
      | some rest => chanSubF fuel rest
      | none => c :: chanSubF fuel cs
    else c :: chanSubF fuel cs

/-- Remove every `<|channel|>...<|message|>` marker pair. -/
def chanSub (s : List Char) : List Char := chanSubF (s.length + 1) s

/-- `re.sub` of a literal token with the empty string (used for `<|end|>` and
`<|start|>`); same fuel argument as `chanSubF`. -/
def removeTokF (tok : List Char) : Nat → List Char → List Char
  | 0, s => s
  | _ + 1, [] => []
  | fuel + 1, c :: cs =>
    if tok.isPrefixOf (c :: cs) then removeTokF tok fuel ((c :: cs).drop tok.length)
    else c :: removeTokF tok fuel cs

/-- Remove every occurrence of a literal token. -/
def removeTok (tok : List Char) (s : List Char) : List Char :=
  removeTokF tok (s.length + 1) s

/-- `re.sub(r'^\s*assistant\s*', '', text)`: anchored at the start of the
string (no `re.MULTILINE`), so at most one substitution. -/
def assistantSub (s : List Char) : List Char :=
  let rest := s.dropWhile isReWs
  if ("assistant".data).isPrefixOf rest then (rest.drop 9).dropWhile isReWs
  else s

/-- Case-insensitive literal match of a lowercase pattern; returns the
remaining subject. -/
def matchCI : List Char → List Char → Option (List Char)
  | [], s => some s
  | _ :: _, [] => none
  | p :: ps, c :: cs => if c.toLower == p then matchCI ps cs else none

/-- `\n` followed by three backticks — the lazy terminator of
`(.*?)\n` + three backticks in the fenced-block pattern. -/
def fenceEndTok : List Char := ['\n', '`', '`', '`']

/-- Find the first terminator occurrence; returns the (lazy) group content
and the input after the whole terminator. -/
def splitAtFenceEnd : List Char → Option (List Char × List Char)
  | [] => none
  | c :: cs =>
    if fenceEndTok.isPrefixOf (c :: cs) then some ([], cs.drop 3)
    else
      match splitAtFenceEnd cs with
      | some (content, rest) => some (c :: content, rest)
      | none => none

/-- Newline offsets within the leading `\s*` run, in descending order: the
backtracking order in which a greedy `\s*` hands positions to the literal
`\n` that follows it. -/
def nlChoices (u : List Char) : List Nat :=
  let ws := u.takeWhile isReWs
  ((List.range ws.length).filter (fun i => ws.get? i = some '\n')).reverse

/-- Try each `\s*`/`\n` split point until the terminator scan succeeds. -/
def tryNlChoices : List Nat → List Char → Option (List Char × List Char)
  | [], _ => none
  | i :: is, u =>
    match splitAtFenceEnd (u.drop (i + 1)) with
    | some r => some r
    | none => tryNlChoices is u

/-- Try one language tag (case-insensitively) followed by `\s*\n` and the
lazy body+terminator. -/
def tryTag (tag : List Char) (u : List Char) : Option (List Char × List Char) :=
  match matchCI tag u with
  | none => none
  | some afterTag => tryNlChoices (nlChoices afterTag) afterTag

/-- The `(?:bash|sh|shell)` alternation in regex order, with backtracking
into the rest of the pattern. -/
def tryTagsAt (u : List Char) : Option (List Char × List Char) :=
  match tryTag ("bash".data) u with
  | some r => some r
  | none =>
    match tryTag ("sh".data) u with
    | some r => some r
    | none => tryTag ("shell".data) u

/-- Try to match one fenced block at this exact position. -/
def tryBlockAt (s : List Char) : Option (List Char × List Char) :=
  if ("```".data).isPrefixOf s then tryTagsAt (s.drop 3) else none

/-- `re.findall` of the fenced-block pattern: scan left to right, restart
after each (non-overlapping) match. Fuel as in `chanSubF`. -/
def findBlocksF : Nat → List Char → List (List Char)
  | 0, _ => []
  | _ + 1, [] => []
  | fuel + 1, c :: cs =>
    match tryBlockAt (c :: cs) with
    | some (content, rest) => content :: findBlocksF fuel rest
    | none => findBlocksF fuel cs

/-- `"\n".join(strings)`. -/
def joinNl : List String → String
  | [] => ""
  | [x] => x
  | x :: xs => x ++ "\n" ++ joinNl xs

/-- The shared code-block extraction: find all fenced bash/sh/shell blocks
and join their stripped bodies with newlines; `none` when no block matched. -/
def findCodeBlocksJoined (t : String) : Option String :=
  match findBlocksF (t.data.length + 1) t.data with
  | [] => none
  | bs => some (joinNl (bs.map (fun b => pyStrip (String.mk b))))

/-- The fallback plain-text scan (`temp.py` lines 128–153): strip leftover
multi-channel markers, then collect fenced bash/sh/shell blocks. -/
def fallbackScan (text : String) : Option Json :=
  let t1 := chanSub text.data
  let t2 := removeTok endTok t1
  let t3 := removeTok startTok t2
  let t4 := assistantSub t3
  let t := pyStrip (String.mk t4)
  if t = "" then none
  else
    match findCodeBlocksJoined t with
    | some cmd => some (.str cmd)
    | none => none

/-- Modelled from the spec: the repository calls `looks_like_hdl_code`, whose
definition is not among the source files. The spec describes it only as a
heuristic that flags text resembling hardware-description-language source, so
it is kept abstract — an arbitrary Boolean predicate supplied as a parameter
(applied to the JSON value drawn from a `"cmd"` list, or to a raw text
wrapped as a JSON string). -/
def HdlHeur : Type := Json → Bool

/-- Modelled from the spec: `looks_like_shell_command`, likewise absent from
the sources and described only as a heuristic for text that looks like a
shell command; kept abstract as a Boolean predicate on strings. -/
def ShellHeur : Type := String → Bool

/-- The analysis-channel item loop (`temp.py` lines 74–101): JSON payloads
with a `"cmd"` list yield the *last* element, subject to the HDL filter
(whose hit sets the sticky flag and `break`s); non-JSON text falls to the
raw-command heuristics; `"cmd" in data` on a non-container raises an
uncaught `TypeError` (only `json.JSONDecodeError` is caught here). -/
def processAnalysisItems (hdl : HdlHeur) (shl : ShellHeur) :
    List (Option String) → Except PyErr (Option Json × Bool)
  | [] => .ok (none, false)
  | none :: rest => processAnalysisItems hdl shl rest
  | some t :: rest =>
    match parseJson t with
    | none =>
      let raw := pyStrip t
      if shl raw && !hdl (.str raw) then .ok (some (.str raw), false)
      else processAnalysisItems hdl shl rest
    | some data => do
      let hit ← pyInKey "cmd" data
      if hit then
        let v ← pyIndexKey "cmd" data
        match v with
        | some (.arr xs) =>
          if xs.isEmpty then processAnalysisItems hdl shl rest
          else
            match xs.getLast? with
            | some j => if hdl j then .ok (none, true) else .ok (some j, false)
            | none => processAnalysisItems hdl shl rest
        | _ => processAnalysisItems hdl shl rest
      else processAnalysisItems hdl shl rest

/-- The bash/sh/shell/cmd-channel item loop (`temp.py` lines 62–69): the
first item whose stripped text is non-empty is the command. -/
def processBashItems : List (Option String) → Option Json
  | [] => none
  | none :: rest => processBashItems rest
  | some t :: rest =>
    let command := pyStrip t
    if command ≠ "" then some (.str command) else processBashItems rest

/-- The final-channel item loop (`temp.py` lines 104–115): the first item
containing fenced bash/sh/shell blocks yields their joined bodies. -/
def processFinalItems : List (Option String) → Option Json
  | [] => none
  | none :: rest => processFinalItems rest
  | some t :: rest =>
    match findCodeBlocksJoined t with
    | some cmd => some (.str cmd)
    | none => processFinalItems rest

/-- One message of the harmony loop in `extract_command_from_text`. The
three channel sections are sequential `if`s in the source, but a message's
channel can satisfy at most one of them. -/
def processMsg (hdl : HdlHeur) (shl : ShellHeur) (msg : HMsg) :
    Except PyErr (Option Json × Bool) :=
  let inBashChans :=
    match msg.channel with
    | some c => c = "bash" || c = "sh" || c = "shell" || c = "cmd"
    | none => false
  match (if inBashChans then processBashItems msg.content else none) with
  | some j => .ok (some j, false)
  | none =>
    if msg.channel = some "analysis" then processAnalysisItems hdl shl msg.content
    else if msg.channel = some "final" then
      match processFinalItems msg.content with
      | some j => .ok (some j, false)
      | none => .ok (none, false)
    else .ok (none, false)

/-- The message loop, accumulating the sticky `hdl_detected_in_json` flag. -/
def processMsgs (hdl : HdlHeur) (shl : ShellHeur) :
    List HMsg → Bool → Except PyErr (Option Json × Bool)
  | [], flag => .ok (none, flag)
  | m :: rest, flag => do
    let r ← processMsg hdl shl m
    match r.1 with
    | some j => .ok (some j, flag || r.2)
    | none => processMsgs hdl shl rest (flag || r.2)

/-- `temp.extract_command_from_text`. The whole harmony phase sits in one
`try`: a decoder exception or an uncaught processing `TypeError` lands in the
`except` arms and falls through to the regex fallback, as does a *successful*
decode that produced zero messages and no HDL hit (`if parsed_messages or
hdl_detected_in_json` is then false); a successful decode with at least one
message but no command returns `None` without touching the fallback. -/
def extract_command_from_text (hdl : HdlHeur) (shl : ShellHeur)
    (dec : String → Except Unit (List HMsg)) (text : String) : Option Json :=
  let t := pyStrip text
  if t = "" then none
  else
    match dec (decoderInput text) with
    | .error _ => fallbackScan t
    | .ok msgs =>
      match processMsgs hdl shl msgs false with
      | .error _ => fallbackScan t
      | .ok (some j, _) => some j
      | .ok (none, flag) =>
        if !msgs.isEmpty || flag then none
        else fallbackScan t

/-! ### Conversation state and the agent loop — `bash_agent.run_bash_agent`

A turn records the fields the source sets: role, flattened text content,
optional channel and recipient, and the author name given to tool turns.
The model endpoint (`call_model` + the response unpacking, lines 198–216) is
an oracle indexed by iteration: a raised request exception or a missing or
empty `"choices"` list each abort the run with `None`; otherwise the
iteration sees the first choice's message fields. -/

/-- Conversation roles. -/
inductive PyRole where
  | system | developer | user | assistant | tool
  deriving DecidableEq, Repr

/-- One conversation turn (immutable once appended). -/
structure Turn where
  role : PyRole
  text : String
  channel : Option String := none
  recipient : Option String := none
  name : Option String := none
  deriving DecidableEq, Repr

/-- The system turn: the `SystemContent` object carries this model identity
(and the conversation start date `2025-11-19`); the embedding keeps the
identity text as the turn's flattened content. -/
def systemTurn : Turn :=
  { role := .system,
    text := "You are a helpful bash assistant that can execute commands." }

/-- The developer turn: behavioural instructions plus the `execute_bash`
tool catalog. -/
def developerTurn : Turn :=
  { role := .developer,
    text := "When users ask you to perform file/system operations:\n1. Call execute_bash with the appropriate command\n2. Wait for results\n3. Provide a friendly summary\n\nAlways call the tool - don\x27t just suggest commands." }

/-- The three turns seeded before the loop (lines 164–185). -/
def initTurns (userTask : String) : List Turn :=
  [systemTurn, developerTurn, { role := .user, text := userTask }]

/-- The message fields of one endpoint choice (`msg.get("content", "")`,
`msg.get("reasoning_content", "")`, `msg.get("tool_calls")`,
`choice.get("finish_reason")`). -/
structure Reply where
  toolCalls : List ToolCall := []
  content : String := ""
  reasoning : String := ""
  finishReason : Option String := none

/-- One endpoint interaction: a raised exception, a response without usable
choices, or the first choice's message. -/
inductive ModelOutcome where
  | err
  | noChoices
  | reply (r : Reply)

/-- The oracles one `run_bash_agent` run consumes: the endpoint (indexed by
iteration), the subprocess behaviour, the `str(e)` text of the `TypeError`
that `subprocess.run` raises when handed a non-string command (caught inside
the executor), and the harmony decoder. -/
structure AgentEnv where
  endpoint : Nat → ModelOutcome
  runner : String → String → RunOutcome
  nonStrMsg : Json → String
  dec : String → Except Unit (List HMsg)

mutual

/-- Python `repr` of a JSON-shaped value (used when one is interpolated into
an f-string inside a container; inner-quote escaping is not modelled). -/
def pyReprJ : Json → String
  | .str s => "\x27" ++ s ++ "\x27"
  | .num n => toString n
  | .bool true => "True"
  | .bool false => "False"
  | .null => "None"
  | .arr xs => "[" ++ pyReprList xs ++ "]"
  | .obj kvs => "\x7b" ++ pyReprKvs kvs ++ "\x7d"

/-- `repr` of list elements, comma-joined. -/
def pyReprList : List Json → String
  | [] => ""
  | [x] => pyReprJ x
  | x :: xs => pyReprJ x ++ ", " ++ pyReprList xs

/-- `repr` of dict entries, comma-joined. -/
def pyReprKvs : List (String × Json) → String
  | [] => ""
  | [(k, v)] => "\x27" ++ k ++ "\x27: " ++ pyReprJ v
  | (k, v) :: xs => "\x27" ++ k ++ "\x27: " ++ pyReprJ v ++ ", " ++ pyReprKvs xs

end

/-- Python `str(x)` / f-string interpolation of a JSON-shaped value. -/
def pyFStr : Json → String
  | .str s => s
  | j => pyReprJ j

/-- Run the extracted command (lines 253–257): a string goes to
`execute_bash_command` with the default working directory; any other value
makes `subprocess.run` raise a `TypeError`, which the executor's
`except Exception` turns into an `"Error: ..."` result. -/
def execCommand (env : AgentEnv) (j : Json) : String × Int :=
  match j with
  | .str s => execute_bash_command env.runner s
  | _ => ("Error: " ++ env.nonStrMsg j, -1)

/-- The assistant turn appended when a command ran (lines 264–268):
`content or reasoning`, channel `commentary`, recipient the bash tool. -/
def mkAsstCmdTurn (r : Reply) : Turn :=
  { role := .assistant,
    text := if r.content ≠ "" then r.content else r.reasoning,
    channel := some "commentary",
    recipient := some "functions.execute_bash" }

/-- The tool turn appended with the execution result (lines 270–278). -/
def mkToolTurn (j : Json) (output : String) (rc : Int) : Turn :=
  { role := .tool,
    name := some "functions.execute_bash",
    text := "Command: " ++ pyFStr j ++ "\nExit code: " ++ toString rc ++ "\nOutput:\n" ++ output,
    channel := some "commentary",
    recipient := some "assistant" }

/-- The `"final"`-tagged assistant turn (lines 289–293). -/
def mkFinalTurn (s : String) : Turn :=
  { role := .assistant, text := s, channel := some "final" }

/-- The `for iteration in range(max_iterations)` loop. The fuel is the
remaining iteration budget, `i` the current index; the accumulated
conversation and `final_response` are threaded explicitly. An uncaught
sniffer `TypeError` aborts the whole run (`Except.error`). The pair returned
on success is the function's `final_response` together with the conversation
log (returned for observation; the Python original keeps it in a local). -/
def agentLoop (env : AgentEnv) :
    Nat → Nat → List Turn → Option String → Except PyErr (Option String × List Turn)
  | 0, _, conv, final => .ok (final, conv)
  | fuel + 1, i, conv, final =>
    match env.endpoint i with
    | .err => .ok (none, conv)
    | .noChoices => .ok (none, conv)
    | .reply r => do
      let cmd ← sniffResponse env.dec r.toolCalls r.content r.reasoning
      if optTruthy cmd then
        let j := cmd.getD .null
        let res := execCommand env j
        agentLoop env fuel (i + 1)
          (conv ++ [mkAsstCmdTurn r, mkToolTurn j res.1 res.2]) final
      else
        let fr := if r.content ≠ "" then r.content else r.reasoning
        let conv2 := if fr ≠ "" then conv ++ [mkFinalTurn fr] else conv
        if r.finishReason = some "stop" then .ok (some fr, conv2)
        else agentLoop env fuel (i + 1) conv2 (some fr)

/-- `bash_agent.run_bash_agent`: seed the conversation, run the loop. -/
def run_bash_agent (env : AgentEnv) (userTask : String)
    (maxIterations : Nat := 5) : Except PyErr (Option String × List Turn) :=
  agentLoop env maxIterations 0 (initTurns userTask) none

/-- Final answer of a completed run (projection used by concrete runs). -/
def finalOf : Except PyErr (Option String × List Turn) → Option String
  | .ok (f, _) => f
  | .error _ => none

/-- Conversation log of a completed run. -/
def convOf : Except PyErr (Option String × List Turn) → List Turn
  | .ok (_, c) => c
  | .error _ => []

/-! ### Helper lemmas -/

/-- A successful dict lookup implies the membership test succeeds. -/
theorem dictGet_some_hasKey {kvs : List (String × Json)} {k : String} {v : Json}
    (h : dictGet kvs k = some v) : dictHasKey kvs k = true := by
  unfold dictGet at h
  cases hf : List.find? (fun p => p.1 == k) kvs.reverse with
  | none => rw [hf] at h; simp at h
  | some p =>
    have hm := List.mem_of_find?_eq_some hf
    have hk := List.find?_some hf
    simp only [dictHasKey, List.any_eq_true]
    exact ⟨p, List.mem_reverse.mp hm, hk⟩

/-- Truthiness of an extracted non-empty string command. -/
theorem optTruthy_str {c : String} (hc : c ≠ "") :
    optTruthy (some (Json.str c)) = true := by
  simp [optTruthy, Json.truthy, hc]

/-! ### Claims about the executor -/

/-- **C3.** For every command, working directory and subprocess behaviour,
the shell executor returns a plain result (it never raises: each `except`
arm of the source is one oracle constructor): a timeout yields the fixed
timeout message with exit code `-1`, and any other launch/communication
failure yields `"Error: <description>"` with exit code `-1`. -/
theorem claim_C3_executor_failures (runner : String → String → RunOutcome)
    (command cwd : String) :
    (runner command cwd = .timedOut →
      execute_bash_command runner command cwd =
        ("Error: Command timed out after 30 seconds", -1)) ∧
    (∀ m, runner command cwd = .failed m →
      execute_bash_command runner command cwd = ("Error: " ++ m, -1)) ∧
    (∃ out rc, execute_bash_command runner command cwd = (out, rc)) := by
  refine ⟨fun h => by simp [execute_bash_command, h],
          fun m h => by simp [execute_bash_command, h],
          ⟨_, _, rfl⟩⟩

/-- Witness for C3 at concrete oracles. -/
theorem claim_C3_witness :
    execute_bash_command (fun _ _ => .timedOut) "sleep 60" "/tmp" =
      ("Error: Command timed out after 30 seconds", -1) ∧
    execute_bash_command (fun _ _ => .failed "boom") "x" "/tmp" =
      ("Error: boom", -1) :=
  ⟨(claim_C3_executor_failures (fun _ _ => .timedOut) "sleep 60" "/tmp").1 rfl,
   (claim_C3_executor_failures (fun _ _ => .failed "boom") "x" "/tmp").2.1 "boom" rfl⟩

/-- Modelled from the spec's wording for C7, for comparison with the code:
trim *trailing* whitespace only. -/
def specTrailingTrim (s : String) : String :=
  String.mk ((s.data.reverse.dropWhile isPyWs).reverse)

/-- **C7, counterexample.** The claim says the combined output is
"trailing-whitespace-trimmed"; the source applies `str.strip()`, which also
removes *leading* whitespace. With stdout `" hello\n"` the code returns
`"hello"`, not the trailing-trimmed `" hello"`. -/
theorem claim_C7_counterexample :
    execute_bash_command (fun _ _ => .completed " hello\n" "" 0) "echo hello" "/tmp" ≠
      (specTrailingTrim (" hello\n" ++ ""), 0) := by
  decide

/-- **C7, amended.** On normal completion the executor returns stdout ++
stderr trimmed of *leading and trailing* whitespace (`str.strip()`), paired
with the real process exit code. -/
theorem claim_C7_completed_output (runner : String → String → RunOutcome)
    (command cwd out err : String) (rc : Int)
    (h : runner command cwd = .completed out err rc) :
    execute_bash_command runner command cwd = (pyStrip (out ++ err), rc) := by
  simp [execute_bash_command, h]

/-- Witness for C7 (amended) at a concrete completion. -/
theorem claim_C7_witness :
    execute_bash_command (fun _ _ => .completed " hello\n" "" 0) "echo hello" "/tmp" =
      ("hello", 0) :=
  (claim_C7_completed_output (fun _ _ => .completed " hello\n" "" 0)
    "echo hello" "/tmp" " hello\n" "" 0 rfl).trans (by decide)

/-! ### Claims about the `run_bash_agent` sniffer -/

/-- **C1, counterexample.** A reply whose `tool_calls` entry names
`execute_bash` with the well-formed JSON argument object containing the
`"command"` field `""` does *not* make the sniffer return that string: `""`
is falsy, so `if not command and content:` lets the bare-JSON content path
run, and the sniffer returns that path's `"ls"` instead. -/
theorem claim_C1_counterexample :
    sniffResponse (fun _ => .error ())
      [{ name := "execute_bash", arguments := .inl "\x7b\"command\": \"\"\x7d" }]
      "\x7b\"command\": \"ls\"\x7d" "" = .ok (some (.str "ls")) ∧
    "ls" ≠ "" := ⟨rfl, by decide⟩

/-- **C1, amended.** When the `tool_calls` scan yields a *non-empty* command
string (the last matching call with parseable arguments decides), the
sniffer returns exactly it, and the later paths are never attempted: the
result does not depend on the content, the reasoning, or the harmony
decoder at all. -/
theorem claim_C1_toolcall_priority (dec : String → Except Unit (List HMsg))
    (tcs : List ToolCall) (content reasoning c : String)
    (h : toolCallPhase tcs none = some (.str c)) (hc : c ≠ "") :
    sniffResponse dec tcs content reasoning = .ok (some (.str c)) := by
  have ht := optTruthy_str hc
  simp [sniffResponse, h, bareJsonPhase, harmonyPhase, ht]

/-- Witness for C1 (amended) at a concrete tool call. -/
theorem claim_C1_witness :
    sniffResponse (fun _ => .error ())
      [{ name := "execute_bash", arguments := .inl "\x7b\"command\": \"ls -la\"\x7d" }]
      "ignored content" "some reasoning" = .ok (some (.str "ls -la")) :=
  claim_C1_toolcall_priority (fun _ => .error ()) _ "ignored content"
    "some reasoning" "ls -la" rfl (by decide)

/-- The bare-JSON probe raises `TypeError` when the parsed content is a
number, boolean or `None` (Python `in` on a non-container). -/
theorem bareJsonPhase_typeError {content : String} {c1 : Option Json} {v : Json}
    (hcmd : optTruthy c1 = false) (hc : content ≠ "")
    (hparse : parseJson (pyStrip content) = some v)
    (hv : (∃ k, v = .num k) ∨ (∃ b, v = .bool b) ∨ v = .null) :
    bareJsonPhase content c1 = .error .typeError := by
  have : pyInKey "command" v = .error .typeError := by
    rcases hv with ⟨k, rfl⟩ | ⟨b, rfl⟩ | rfl <;> rfl
  simp only [bareJsonPhase, hcmd, hc, hparse, this, Bool.not_false, ne_eq]
  simp [hc]
  rfl

/-- **C10.** A reply with no usable tool call whose stripped content parses
as a JSON number, boolean or `null` makes the bare-JSON step raise an
uncaught `TypeError` (its `try` catches only `json.JSONDecodeError`), which
aborts the whole agent loop. -/
theorem claim_C10_typeError_aborts (env : AgentEnv) (task : String) (n : Nat)
    (r : Reply) (v : Json)
    (he : env.endpoint 0 = .reply r)
    (hcmd : optTruthy (toolCallPhase r.toolCalls none) = false)
    (hc : r.content ≠ "")
    (hparse : parseJson (pyStrip r.content) = some v)
    (hv : (∃ k, v = .num k) ∨ (∃ b, v = .bool b) ∨ v = .null) :
    run_bash_agent env task (n + 1) = .error .typeError := by
  have hb := bareJsonPhase_typeError hcmd hc hparse hv
  simp only [run_bash_agent, agentLoop, he, sniffResponse, hb]
  rfl

/-- Witness for C10: content `"42"` (a JSON number) aborts the loop. -/
theorem claim_C10_witness :
    run_bash_agent
      { endpoint := fun _ => .reply { content := "42" },
        runner := fun _ _ => .timedOut,
        nonStrMsg := fun _ => "",
        dec := fun _ => .error () } "task" (4 + 1) = .error .typeError :=
  claim_C10_typeError_aborts _ "task" 4 { content := "42" } (.num 42)
    rfl rfl (by decide) rfl (.inl ⟨42, rfl⟩)

/-- `Except` bind on a success (do-notation unfolding helper). -/
theorem exceptBind_ok {α β ε : Type} (x : α) (f : α → Except ε β) :
    (Except.ok x >>= f) = f x := rfl

/-- `Except` bind on an error (do-notation unfolding helper). -/
theorem exceptBind_error {α β ε : Type} (e : ε) (f : α → Except ε β) :
    ((Except.error e : Except ε α) >>= f) = Except.error e := rfl

/-- The analysis-channel item step on a JSON object whose `"cmd"` field is a
non-empty list: the last element is selected; the HDL heuristic decides
between returning it and setting the sticky flag. -/
theorem processAnalysisItems_cmdList (hdl : HdlHeur) (shl : ShellHeur)
    (t : String) (items : List (Option String))
    (kvs : List (String × Json)) (xs : List Json) (j : Json)
    (hparse : parseJson t = some (.obj kvs))
    (hget : dictGet kvs "cmd" = some (.arr xs))
    (hlast : xs.getLast? = some j) :
    processAnalysisItems hdl shl (some t :: items) =
      .ok (if hdl j then (none, true) else (some j, false)) := by
  have hk := dictGet_some_hasKey hget
  have hE : xs.isEmpty = false := by
    cases xs with
    | nil => simp at hlast
    | cons a as => rfl
  simp only [processAnalysisItems, hparse, pyInKey, hk, exceptBind_ok, if_true,
    pyIndexKey, hget, hE, Bool.false_eq_true, if_false, hlast]
  cases h : hdl j <;> simp [h]

/-- A message on the `analysis` channel never enters the bash-channel or
final-channel sections. -/
theorem processMsg_analysis (hdl : HdlHeur) (shl : ShellHeur) (msg : HMsg)
    (hch : msg.channel = some "analysis") :
    processMsg hdl shl msg = processAnalysisItems hdl shl msg.content := by
  simp [processMsg, hch]

/-- **C5.** A decoded message list headed by an `analysis`-channel message
whose first content item parses as a JSON object with a non-empty list field
`"cmd"` makes the sniffer return the *last* element of that list, provided
the HDL heuristic clears it. -/
theorem claim_C5_analysis_last_element (hdl : HdlHeur) (shl : ShellHeur)
    (dec : String → Except Unit (List HMsg)) (text t : String)
    (msg : HMsg) (rest : List HMsg) (items : List (Option String))
    (kvs : List (String × Json)) (xs : List Json) (j : Json)
    (h0 : pyStrip text ≠ "")
    (hdec : dec (decoderInput text) = .ok (msg :: rest))
    (hch : msg.channel = some "analysis")
    (hcontent : msg.content = some t :: items)
    (hparse : parseJson t = some (.obj kvs))
    (hget : dictGet kvs "cmd" = some (.arr xs))
    (hlast : xs.getLast? = some j)
    (hhdl : hdl j = false) :
    extract_command_from_text hdl shl dec text = some j := by
  have hmsg : processMsg hdl shl msg = .ok (some j, false) := by
    rw [processMsg_analysis hdl shl msg hch, hcontent,
      processAnalysisItems_cmdList hdl shl t items kvs xs j hparse hget hlast, hhdl]
    rfl
  have hms : processMsgs hdl shl (msg :: rest) false = .ok (some j, false) := by
    simp [processMsgs, hmsg, exceptBind_ok]
  simp [extract_command_from_text, h0, hdec, hms]

/-- Witness for C5: the spec's own example payload
`{"cmd": ["ls", "ls -la"]}` yields `"ls -la"`. -/
theorem claim_C5_witness :
    extract_command_from_text (fun _ => false) (fun _ => false)
      (fun _ => .ok [{ channel := some "analysis",
                       content := [some "\x7b\"cmd\": [\"ls\", \"ls -la\"]\x7d"] }])
      "model output" = some (.str "ls -la") :=
  claim_C5_analysis_last_element (fun _ => false) (fun _ => false) _
    "model output" "\x7b\"cmd\": [\"ls\", \"ls -la\"]\x7d" _ [] []
    [("cmd", .arr [.str "ls", .str "ls -la"])] [.str "ls", .str "ls -la"]
    (.str "ls -la") (by decide) rfl rfl rfl rfl rfl rfl rfl

/-- **C4.** When the element selected from an `analysis`-channel `"cmd"` list
is flagged by the HDL heuristic, the sniffer rejects it non-fatally: the
sticky flag is set, the message contributes no command, and (the decode
having succeeded) the function returns `None` — never the HDL text and never
the regex fallback. -/
theorem claim_C4_hdl_rejected (hdl : HdlHeur) (shl : ShellHeur)
    (dec : String → Except Unit (List HMsg)) (text t : String)
    (msg : HMsg) (items : List (Option String))
    (kvs : List (String × Json)) (xs : List Json) (j : Json)
    (h0 : pyStrip text ≠ "")
    (hdec : dec (decoderInput text) = .ok [msg])
    (hch : msg.channel = some "analysis")
    (hcontent : msg.content = some t :: items)
    (hparse : parseJson t = some (.obj kvs))
    (hget : dictGet kvs "cmd" = some (.arr xs))
    (hlast : xs.getLast? = some j)
    (hhdl : hdl j = true) :
    extract_command_from_text hdl shl dec text = none := by
  have hmsg : processMsg hdl shl msg = .ok (none, true) := by
    rw [processMsg_analysis hdl shl msg hch, hcontent,
      processAnalysisItems_cmdList hdl shl t items kvs xs j hparse hget hlast, hhdl]
    rfl
  have hms : processMsgs hdl shl [msg] false = .ok (none, true) := by
    simp [processMsgs, hmsg, exceptBind_ok]
  simp [extract_command_from_text, h0, hdec, hms]

/-- Witness for C4: a Verilog-looking string inside a `"cmd"` list is
rejected and the sniffer reports no command. -/
theorem claim_C4_witness :
    extract_command_from_text
      (fun j => match j with
        | .str s => isSubstrOf "module" s
        | _ => false)
      (fun _ => false)
      (fun _ => .ok [{ channel := some "analysis",
                       content := [some "\x7b\"cmd\": [\"module m; endmodule\"]\x7d"] }])
      "model output" = none :=
  claim_C4_hdl_rejected _ (fun _ => false) _
    "model output" "\x7b\"cmd\": [\"module m; endmodule\"]\x7d" _ []
    [("cmd", .arr [.str "module m; endmodule"])] [.str "module m; endmodule"]
    (.str "module m; endmodule") (by decide) rfl rfl rfl rfl rfl rfl rfl

/-- **C2, counterexample.** The decoder runs successfully and yields zero
messages — explicitly zero commands — yet the sniffer does *not* return "no
command": `if parsed_messages or hdl_detected_in_json` is false for an empty
list, so control falls through to the regex fallback, which extracts `"ls"`
from the fenced block. -/
theorem claim_C2_counterexample :
    extract_command_from_text (fun _ => false) (fun _ => false)
      (fun _ => .ok []) "```bash\nls\n```" = some (.str "ls") ∧
    some (Json.str "ls") ≠ none := ⟨rfl, by simp⟩

/-- **C2, amended.** The regex fallback is unreachable after a successful
decode that yielded *at least one* message and whose processing finished
without an exception and without a command: the sniffer then returns "no
command". (A successful decode yielding an *empty* message list with no HDL
hit, or a processing exception, does reach the fallback — see the
counterexample.) -/
theorem claim_C2_no_fallback_after_empty_decode (hdl : HdlHeur)
    (shl : ShellHeur) (dec : String → Except Unit (List HMsg))
    (text : String) (msgs : List HMsg) (flag : Bool)
    (h0 : pyStrip text ≠ "")
    (hdec : dec (decoderInput text) = .ok msgs)
    (hne : msgs ≠ [])
    (hproc : processMsgs hdl shl msgs false = .ok (none, flag)) :
    extract_command_from_text hdl shl dec text = none := by
  have hE : msgs.isEmpty = false := by
    cases msgs with
    | nil => exact absurd rfl hne
    | cons a as => rfl
  simp [extract_command_from_text, h0, hdec, hproc, hE]

/-- Witness for C2 (amended): one commentary message, no command, no
fallback. -/
theorem claim_C2_witness :
    extract_command_from_text (fun _ => false) (fun _ => false)
      (fun _ => .ok [{ channel := some "commentary", content := [some "hi"] }])
      "```bash\nls\n```" = none :=
  claim_C2_no_fallback_after_empty_decode (fun _ => false) (fun _ => false) _
    "```bash\nls\n```" [{ channel := some "commentary", content := [some "hi"] }]
    false (by decide) rfl (by simp) rfl

/-! ### C6: the `<|call|>` truncation bounds the decoder input -/

/-- `splitCall` never returns the empty list (Python `str.split` always
yields at least one part). -/
theorem splitCall_ne_nil : ∀ s : List Char, splitCall s ≠ [] := by
  intro s
  induction s using splitCall.induct with
  | case1 rest IH => simp [splitCall]
  | case2 head rest h hsplit IH => simp [splitCall, hsplit]
  | case3 head rest h p ps hsplit IH => simp [splitCall, hsplit]
  | case4 => simp [splitCall]

/-- Counting after the token: one occurrence plus the rest. -/
theorem countCall_tok (x : List Char) : countCall (callTok ++ x) = 1 + countCall x := rfl

/-- Splitting after the token: an empty part, then the split of the rest. -/
theorem splitCall_tok (x : List Char) : splitCall (callTok ++ x) = [] :: splitCall x := rfl

/-- The non-match hypothesis provided by functional induction implies the
token is not a prefix. -/
theorem not_tok_prefix (head : Char) (rest : List Char)
    (h : ∀ rest1, head = '<' → rest = '|' :: 'c' :: 'a' :: 'l' :: 'l' :: '|' :: '>' :: rest1 → False) :
    ¬ callTok <+: (head :: rest) := by
  rintro ⟨t, ht⟩
  have ht' : '<' :: '|' :: 'c' :: 'a' :: 'l' :: 'l' :: '|' :: '>' :: t = head :: rest := ht
  injection ht' with h1 h2
  exact h t h1.symm h2.symm

/-- Counting steps over a non-token head. -/
theorem countCall_cons (c : Char) (x : List Char) (h : ¬ callTok <+: (c :: x)) :
    countCall (c :: x) = countCall x := by
  rw [countCall.eq_def]
  split
  · rename_i rest heq
    exact absurd ⟨rest, heq.symm⟩ h
  · rename_i head rest hne heq
    injection heq with h1 h2
    rw [h2]
  · rename_i heq
    exact absurd heq (by simp)

/-- Splitting steps over a non-token head. -/
theorem splitCall_cons (c : Char) (x : List Char) (p : List Char)
    (ps : List (List Char)) (h : ¬ callTok <+: (c :: x))
    (hx : splitCall x = p :: ps) : splitCall (c :: x) = (c :: p) :: ps := by
  rw [splitCall.eq_def]
  split
  · rename_i rest heq
    exact absurd ⟨rest, heq.symm⟩ h
  · rename_i head rest hne heq
    injection heq with h1 h2
    subst h1; subst h2
    rw [hx]
  · rename_i heq
    exact absurd heq (by simp)

/-- Join over a head prepended to the first part. -/
theorem joinCall_cons_cons (c : Char) (p : List Char) (l : List (List Char)) :
    joinCall ((c :: p) :: l) = c :: joinCall (p :: l) := by
  cases l <;> simp [joinCall]

/-- Join over a leading empty part with a non-empty tail. -/
theorem joinCall_nil_cons (x : List Char) (xs : List (List Char)) :
    joinCall ([] :: x :: xs) = callTok ++ joinCall (x :: xs) := by
  simp [joinCall]

/-- Rejoining the first `k ≥ 1` split parts yields a prefix of the original
text. -/
theorem joinCall_take_front :
    ∀ (s : List Char) (k : Nat), 1 ≤ k → joinCall ((splitCall s).take k) <+: s := by
  intro s
  induction s using splitCall.induct with
  | case1 rest IH =>
    intro k hk
    show joinCall ((splitCall (callTok ++ rest)).take k) <+: callTok ++ rest
    rw [splitCall_tok]
    cases k with
    | zero => omega
    | succ k' =>
      rw [List.take_succ_cons]
      cases k' with
      | zero => simp [joinCall]
      | succ k'' =>
        cases hL : splitCall rest with
        | nil => exact absurd hL (splitCall_ne_nil rest)
        | cons x xs =>
          rw [List.take_succ_cons, joinCall_nil_cons, ← List.take_succ_cons, ← hL]
          exact (List.prefix_append_right_inj callTok).mpr (IH (k'' + 1) (by omega))
  | case2 head rest h hsplit IH => exact absurd hsplit (splitCall_ne_nil rest)
  | case3 head rest h p ps hsplit IH =>
    intro k hk
    have hnp := not_tok_prefix head rest h
    rw [splitCall_cons head rest p ps hnp hsplit]
    cases k with
    | zero => omega
    | succ k' =>
      rw [List.take_succ_cons, joinCall_cons_cons, ← List.take_succ_cons, ← hsplit]
      exact List.cons_prefix_cons.mpr ⟨rfl, IH (k' + 1) (by omega)⟩
  | case4 =>
    intro k hk
    cases k with
    | zero => omega
    | succ k' => simp [splitCall, joinCall]

/-- Rejoining the first `k ≥ 1` split parts keeps `min (k-1)` of the token
occurrences. -/
theorem joinCall_take_count :
    ∀ (s : List Char) (k : Nat), 1 ≤ k →
      countCall (joinCall ((splitCall s).take k)) = min (k - 1) (countCall s) := by
  intro s
  induction s using splitCall.induct with
  | case1 rest IH =>
    intro k hk
    show countCall (joinCall ((splitCall (callTok ++ rest)).take k)) =
      min (k - 1) (countCall (callTok ++ rest))
    rw [splitCall_tok, countCall_tok]
    cases k with
    | zero => omega
    | succ k' =>
      rw [List.take_succ_cons]
      cases k' with
      | zero => simp [joinCall, countCall]
      | succ k'' =>
        cases hL : splitCall rest with
        | nil => exact absurd hL (splitCall_ne_nil rest)
        | cons x xs =>
          rw [List.take_succ_cons, joinCall_nil_cons, ← List.take_succ_cons, ← hL,
            countCall_tok, IH (k'' + 1) (by omega)]
          omega
  | case2 head rest h hsplit IH => exact absurd hsplit (splitCall_ne_nil rest)
  | case3 head rest h p ps hsplit IH =>
    intro k hk
    have hnp := not_tok_prefix head rest h
    rw [splitCall_cons head rest p ps hnp hsplit, countCall_cons head rest hnp]
    cases k with
    | zero => omega
    | succ k' =>
      rw [List.take_succ_cons, joinCall_cons_cons, ← List.take_succ_cons, ← hsplit]
      have hpre : joinCall ((splitCall rest).take (k' + 1)) <+: rest :=
        joinCall_take_front rest (k' + 1) (by omega)
      have hnp2 : ¬ callTok <+: (head :: joinCall ((splitCall rest).take (k' + 1))) := by
        intro hc
        exact hnp (hc.trans (List.cons_prefix_cons.mpr ⟨rfl, hpre⟩))
      rw [countCall_cons _ _ hnp2, IH (k' + 1) (by omega)]
  | case4 =>
    intro k hk
    cases k with
    | zero => omega
    | succ k' => simp [splitCall, joinCall, countCall]

/-- **C6.** When the input contains more than 10 `<|call|>` occurrences, the
text handed to the harmony encoder is the prefix of the input that ends at
the 10th occurrence: it is a prefix and contains exactly 10 occurrences.
(The sniffing call itself cannot hang or throw: `extract_command_from_text`
is total and every decoder failure is swallowed into the fallback.) -/
theorem claim_C6_truncation (text : String) (h : 10 < countCall text.data) :
    (decoderInput text).data.isPrefixOf text.data = true ∧
    countCall (decoderInput text).data = 10 := by
  have hgt : countCall text.data > 10 := h
  constructor
  · rw [decoderInput, if_pos hgt]
    exact List.isPrefixOf_iff_prefix.mpr (joinCall_take_front text.data 11 (by omega))
  · rw [decoderInput, if_pos hgt]
    have := joinCall_take_count text.data 11 (by omega)
    simp only [this]
    omega

/-- Witness text for C6: 50 repetitions of the loop marker. -/
def fiftyCalls : String := String.mk ((List.replicate 50 callTok).flatten)

/-- Witness for C6 at the spec's 50-repetition example. -/
theorem claim_C6_witness :
    10 < countCall fiftyCalls.data ∧
    ((decoderInput fiftyCalls).data.isPrefixOf fiftyCalls.data = true ∧
      countCall (decoderInput fiftyCalls).data = 10) :=
  ⟨by decide, claim_C6_truncation fiftyCalls (by decide)⟩

/-! ### C9: conversation log structure -/

/-- A command iteration's contribution: the assistant echo turn plus the
tool-result turn. -/
def IsCmdBlock (b : List Turn) : Prop :=
  ∃ r j out rc, b = [mkAsstCmdTurn r, mkToolTurn j out rc]

/-- A final-answer iteration's contribution: one `"final"`-tagged assistant
turn with non-empty text. -/
def IsFinalBlock (b : List Turn) : Prop :=
  ∃ s, s ≠ "" ∧ b = [mkFinalTurn s]

/-- Environment for the C9 counterexample: the single reply carries no tool
call, empty content, empty reasoning and `finish_reason = "stop"`. -/
def envC9 : AgentEnv :=
  { endpoint := fun _ => .reply { content := "", reasoning := "", finishReason := some "stop" },
    runner := fun _ _ => .timedOut,
    nonStrMsg := fun _ => "",
    dec := fun _ => .error () }

/-- **C9, counterexample.** An iteration that found no command appends
*nothing* when both content and reasoning are empty (`if final_response:`
guards the append), so "every subsequent loop iteration appends either an
assistant+tool pair or one final-tagged assistant turn" fails: this run
executes one iteration (it produces the final answer `""`), yet the log
still holds exactly the three seeded turns. -/
theorem claim_C9_counterexample :
    convOf (run_bash_agent envC9 "task" 1) = initTurns "task" ∧
    finalOf (run_bash_agent envC9 "task" 1) = some "" ∧
    (initTurns "task").length = 3 := ⟨rfl, rfl, rfl⟩

/-- The loop only ever appends whole blocks: starting from any conversation,
a successful run extends it by a concatenation of command blocks and
(non-empty) final blocks. -/
theorem agentLoop_append_only (env : AgentEnv) :
    ∀ (fuel i : Nat) (conv : List Turn) (final f : Option String) (conv' : List Turn),
      agentLoop env fuel i conv final = .ok (f, conv') →
      ∃ blocks : List (List Turn), conv' = conv ++ blocks.flatten ∧
        ∀ b ∈ blocks, IsCmdBlock b ∨ IsFinalBlock b := by
  intro fuel
  induction fuel with
  | zero =>
    intro i conv final f conv' h
    simp only [agentLoop, Except.ok.injEq, Prod.mk.injEq] at h
    exact ⟨[], by simp [h.2], by simp⟩
  | succ n IH =>
    intro i conv final f conv' h
    simp only [agentLoop] at h
    cases he : env.endpoint i with
    | err =>
      simp only [he, Except.ok.injEq, Prod.mk.injEq] at h
      exact ⟨[], by simp [h.2], by simp⟩
    | noChoices =>
      simp only [he, Except.ok.injEq, Prod.mk.injEq] at h
      exact ⟨[], by simp [h.2], by simp⟩
    | reply r =>
      simp only [he] at h
      cases hs : sniffResponse env.dec r.toolCalls r.content r.reasoning with
      | error e => rw [hs] at h; exact absurd h (by simp [exceptBind_error])
      | ok cmd =>
        rw [hs, exceptBind_ok] at h
        by_cases ht : optTruthy cmd = true
        · rw [if_pos ht] at h
          obtain ⟨blocks, hconv, hblocks⟩ := IH (i + 1) _ final f conv' h
          refine ⟨[mkAsstCmdTurn r,
                   mkToolTurn (cmd.getD Json.null)
                     (execCommand env (cmd.getD Json.null)).1
                     (execCommand env (cmd.getD Json.null)).2] :: blocks, ?_, ?_⟩
          · simp [hconv]
          · intro b hb
            rcases List.mem_cons.mp hb with rfl | hb'
            · exact Or.inl ⟨r, _, _, _, rfl⟩
            · exact hblocks b hb'
        · rw [if_neg ht] at h
          set frv := if r.content ≠ "" then r.content else r.reasoning with hfrv
          by_cases hstop : r.finishReason = some "stop"
          · rw [if_pos hstop] at h
            simp only [Except.ok.injEq, Prod.mk.injEq] at h
            obtain ⟨h1, h2⟩ := h
            by_cases hfr : frv = ""
            · rw [if_neg (fun hn => hn hfr)] at h2
              exact ⟨[], by simp [h2.symm], by simp⟩
            · rw [if_pos hfr] at h2
              refine ⟨[[mkFinalTurn frv]], by simp [h2.symm], ?_⟩
              intro b hb
              rcases List.mem_cons.mp hb with rfl | hb'
              · exact Or.inr ⟨frv, hfr, rfl⟩
              · simp at hb'
          · rw [if_neg hstop] at h
            by_cases hfr : frv = ""
            · rw [if_neg (fun hn => hn hfr)] at h
              exact IH (i + 1) _ _ f conv' h
            · rw [if_pos hfr] at h
              obtain ⟨blocks, hconv, hblocks⟩ := IH (i + 1) _ _ f conv' h
              refine ⟨[mkFinalTurn frv] :: blocks, ?_, ?_⟩
              · simp [hconv]
              · intro b hb
                rcases List.mem_cons.mp hb with rfl | hb'
                · exact Or.inr ⟨frv, hfr, rfl⟩
                · exact hblocks b hb'

/-- **C9, amended.** The conversation starts with exactly one system turn,
one developer turn and one user turn, and a successful run only ever
*appends* after them: the final log is the seed followed by a concatenation
of blocks, each either an assistant+tool pair (command iterations) or a
single non-empty `"final"`-tagged assistant turn (final-answer iterations
whose content-or-reasoning was non-empty; endpoint failures and entirely
empty replies append nothing). -/
theorem claim_C9_append_only (env : AgentEnv) (task : String) (n : Nat)
    (f : Option String) (conv : List Turn)
    (h : run_bash_agent env task n = .ok (f, conv)) :
    (initTurns task).map Turn.role = [.system, .developer, .user] ∧
    ∃ blocks : List (List Turn), conv = initTurns task ++ blocks.flatten ∧
      ∀ b ∈ blocks, IsCmdBlock b ∨ IsFinalBlock b :=
  ⟨rfl, agentLoop_append_only env n 0 (initTurns task) none f conv h⟩

/-- Witness for C9 (amended) on a concrete run (endpoint always failing:
the run returns `None` with the untouched seed conversation). -/
theorem claim_C9_witness :
    (initTurns "task").map Turn.role = [.system, .developer, .user] ∧
    ∃ blocks : List (List Turn),
      initTurns "task" = initTurns "task" ++ blocks.flatten ∧
      ∀ b ∈ blocks, IsCmdBlock b ∨ IsFinalBlock b :=
  claim_C9_append_only
    { endpoint := fun _ => .err, runner := fun _ _ => .timedOut,
      nonStrMsg := fun _ => "", dec := fun _ => .error () }
    "task" 3 none (initTurns "task") rfl

/-! ### C8: loop termination on a command-free reply -/

/-- First reply of the C8 counterexample run: a structured `execute_bash`
tool call. -/
def replyCmd : Reply :=
  { toolCalls := [{ name := "execute_bash",
                    arguments := .inl "\x7b\"command\": \"ls\"\x7d" }],
    reasoning := "listing files" }

/-- Second reply: no command, but `finish_reason` is `"length"`, not
`"stop"`. -/
def replyMidtask : Reply :=
  { content := "working", finishReason := some "length" }

/-- Third reply: no command, `finish_reason = "stop"`. -/
def replyDone : Reply :=
  { content := "done", finishReason := some "stop" }

/-- Environment for the C8 counterexample. -/
def envC8 : AgentEnv :=
  { endpoint := fun i =>
      if i = 0 then .reply replyCmd
      else if i = 1 then .reply replyMidtask
      else .reply replyDone,
    runner := fun _ _ => .completed "file1\nfile2" "" 0,
    nonStrMsg := fun _ => "",
    dec := fun _ => .error () }

/-- **C8, counterexample.** The first reply yields a command and the second
yields none, yet the loop does *not* terminate after two iterations: the
second reply's `finish_reason` is not `"stop"`, so the loop issues a third
model call and returns the third reply's content, not the second's. -/
theorem claim_C8_counterexample :
    finalOf (run_bash_agent envC8 "list the files" 5) = some "done" ∧
    "done" ≠ "working" := ⟨rfl, by decide⟩

/-- **C8, amended.** When the first reply yields a (truthy) command, the
second yields none, and the second reply has non-empty content and
`finish_reason = "stop"`, the loop stops after exactly two iterations —
for *every* iteration budget of at least 2, and whatever the endpoint would
answer from iteration 2 on — returning the second reply's content, with the
conversation extended by exactly one command block and one final turn. -/
theorem claim_C8_two_iterations (env : AgentEnv) (task : String) (n : Nat)
    (r1 r2 : Reply) (j : Json) (c2 : Option Json)
    (h0 : env.endpoint 0 = .reply r1)
    (h1 : env.endpoint 1 = .reply r2)
    (hs1 : sniffResponse env.dec r1.toolCalls r1.content r1.reasoning = .ok (some j))
    (hj : j.truthy = true)
    (hs2 : sniffResponse env.dec r2.toolCalls r2.content r2.reasoning = .ok c2)
    (hc2 : optTruthy c2 = false)
    (hc : r2.content ≠ "")
    (hf : r2.finishReason = some "stop")
    (hn : 2 ≤ n) :
    run_bash_agent env task n =
      .ok (some r2.content,
        initTurns task ++
          [mkAsstCmdTurn r1,
           mkToolTurn j (execCommand env j).1 (execCommand env j).2,
           mkFinalTurn r2.content]) := by
  obtain ⟨m, rfl⟩ : ∃ m, n = m + 2 := ⟨n - 2, by omega⟩
  rw [run_bash_agent]
  show agentLoop env (m + 1 + 1) 0 (initTurns task) none = _
  simp only [agentLoop, h0, hs1, exceptBind_ok]
  have ht1 : optTruthy (some j) = true := by simp [optTruthy, hj]
  rw [if_pos ht1]
  simp only [Option.getD_some, h1, hs2, exceptBind_ok]
  rw [if_neg (by simp [hc2]), if_pos hc, if_pos hf, if_pos hc]
  simp

/-- Second reply for the C8 witness run: no command, non-empty content,
`finish_reason = "stop"`. -/
def replyStop : Reply := { content := "All done", finishReason := some "stop" }

/-- Environment for the C8 witness (the endpoint fails from iteration 2 on,
which the run never reaches). -/
def envC8w : AgentEnv :=
  { endpoint := fun i =>
      if i = 0 then .reply replyCmd
      else if i = 1 then .reply replyStop
      else .err,
    runner := fun _ _ => .completed "file1\nfile2" "" 0,
    nonStrMsg := fun _ => "",
    dec := fun _ => .error () }

/-- Witness for C8 (amended) on a concrete two-reply run. -/
theorem claim_C8_witness :
    run_bash_agent envC8w "list the files" 5 =
      .ok (some "All done",
        initTurns "list the files" ++
          [mkAsstCmdTurn replyCmd, mkToolTurn (.str "ls") "file1\nfile2" 0,
           mkFinalTurn "All done"]) :=
  (claim_C8_two_iterations envC8w "list the files" 5 replyCmd replyStop
    (.str "ls") none rfl rfl rfl (by decide) rfl rfl (by decide) rfl
    (by omega)).trans (by rfl)
